import Mathlib

/-!
Verification development for the FolliCore ML inference service.

The definitions below are a shallow embedding of the Python sources:
- src/ml/api/inference/dinov2.py (class DINOv2Inference and InferenceResult)
- src/ml/api/server.py (AppState, load_models, readiness_check)

Python exceptions are modelled as an error sum type (Except), the mutable
object state of DINOv2Inference as an explicit record threaded through the
stateful methods, wall-clock readings of time.time() as an externally
supplied clock, and numpy/torch numeric data as rational-valued nested
lists.  Calls into external libraries (PIL, torch, onnxruntime) that the
repository treats as opaque collaborators are modelled by explicit
environment records carrying their observable outputs.
-/

namespace FolliCore

/-- One pixel of 3-channel color data (red, green, blue intensities). -/
structure RGB where
  r : ℚ
  g : ℚ
  b : ℚ
deriving DecidableEq

/-- A tensor in batch x channel x height x width layout, as produced by
preprocess (numpy float arrays are modelled over the rationals). -/
abbrev Tensor := List (List (List (List ℚ)))

/-- One attention map as returned per layer by the torch model. -/
abbrev AttentionMap := List (List (List ℚ))

/-- The Python image argument of preprocess: either a value that the
imaging library converts to 3-channel color data, or one on which the
conversion raises. -/
inductive ImageValue where
  | decodable (pixels : List (List RGB))
  | undecodable (msg : String)
deriving DecidableEq

/-- Exceptions raised by the embedded code, as a sum type.
notLoaded models the raise RuntimeError (Model not loaded. Call load()
first.) in extract_features; decodeError models the exception propagating
out of the imaging-library conversion to 3-channel RGB inside preprocess;
attributeError models dereferencing an absent model object in the warmup
loop body. -/
inductive PyError where
  | notLoaded
  | decodeError (msg : String)
  | attributeError
deriving DecidableEq

/-- Result record of dinov2.py lines 43-66 (dataclass InferenceResult). -/
structure InferenceResult where
  embedding : List ℚ
  dimension : ℕ
  model_name : String
  model_version : String
  preprocessing_time_ms : ℚ
  inference_time_ms : ℚ
  total_time_ms : ℚ
  attention_maps : Option (List AttentionMap) := none
  patch_features : Option (List (List ℚ)) := none
deriving DecidableEq

/-- Instrumentation counters of the embedding: how many times the
preprocess body and a backend forward pass actually ran during one call. -/
structure Effects where
  preprocess_calls : ℕ
  forward_passes : ℕ
deriving DecidableEq

/-- Mutable object state of class DINOv2Inference (dinov2.py lines
94-133).  model_set stands for self._model being not None, ort_session
for self._ort_session being not None. -/
structure DINOv2Inference where
  model_name : String
  checkpoint_path : Option String
  onnx_path : Option String
  device : String
  use_fp16 : Bool
  image_size : ℕ
  mean : RGB
  std : RGB
  model_set : Bool
  ort_session : Bool
  is_loaded : Bool
  model_version : String
  embedding_dim : ℕ
deriving DecidableEq

/-- ImageNet channel means of dinov2.py line 128. -/
def imagenetMean : RGB := ⟨485/1000, 456/1000, 406/1000⟩

/-- ImageNet channel standard deviations of dinov2.py line 129. -/
def imagenetStd : RGB := ⟨229/1000, 224/1000, 225/1000⟩

/-- Constructor of DINOv2Inference (dinov2.py lines 94-133).  use_fp16 is
anded with the device being cuda; the model starts not loaded with neither
a torch model nor an onnx session, version unknown and dimension 768. -/
def DINOv2Inference.init (model_name : String) (checkpoint_path onnx_path : Option String)
    (device : String) (use_fp16 : Bool) (image_size : ℕ) : DINOv2Inference :=
  { model_name := model_name
    checkpoint_path := checkpoint_path
    onnx_path := onnx_path
    device := device
    use_fp16 := use_fp16 && (device == "cuda")
    image_size := image_size
    mean := imagenetMean
    std := imagenetStd
    model_set := false
    ort_session := false
    is_loaded := false
    model_version := "unknown"
    embedding_dim := 768 }

/-- Python truthiness of an optional string path: None and the empty
string are falsy. -/
def truthyPath : Option String → Bool
  | none => false
  | some s => !(s == "")

/-- Observable outputs of the external loading collaborators: the file
system, the torch model and the onnx session. -/
structure LoadEnv where
  fileExists : String → Bool
  hidden_size : ℕ
  onnx_output_dims : List ℕ
  ckpt_has_state_dict : Bool
  ckpt_version : Option String

/-- Embedding of _load_pytorch (dinov2.py lines 162-218): sets the torch
model object, takes the version from the checkpoint when one is configured
and exists (checkpoint.get with default checkpoint, else pretrained), and
the embedding dimension from the model hidden size. -/
def DINOv2Inference._load_pytorch (st : DINOv2Inference) (env : LoadEnv) : DINOv2Inference :=
  { st with
    model_set := true
    model_version :=
      if truthyPath st.checkpoint_path && env.fileExists (st.checkpoint_path.getD "") then
        env.ckpt_version.getD "checkpoint"
      else
        "pretrained"
    embedding_dim := env.hidden_size }

/-- Embedding of _load_onnx (dinov2.py lines 220-282): creates the onnx
session, sets version onnx, and takes the embedding dimension from the
last axis of the first graph output (768 when there are no outputs). -/
def DINOv2Inference._load_onnx (st : DINOv2Inference) (env : LoadEnv) : DINOv2Inference :=
  { st with
    ort_session := true
    model_version := "onnx"
    embedding_dim := env.onnx_output_dims.headD 768 }

/-- Embedding of _load_sync (dinov2.py lines 147-160): prefer the onnx
backend when onnx_path is truthy and the artifact exists on disk,
otherwise load the torch backend; finally mark the extractor loaded. -/
def DINOv2Inference._load_sync (st : DINOv2Inference) (env : LoadEnv) : DINOv2Inference :=
  let st1 :=
    if truthyPath st.onnx_path && env.fileExists (st.onnx_path.getD "") then
      st._load_onnx env
    else
      st._load_pytorch env
  { st1 with is_loaded := true }

/-- Pixel lookup with the usual out-of-range default (used only at
clamped, in-range coordinates). -/
def getPixel (px : List (List RGB)) (i j : ℕ) : RGB :=
  (px.getD i []).getD j ⟨0, 0, 0⟩

/-- Clamp an integer coordinate into [0, bound-1]. -/
def clampCoord (bound : ℕ) (i : ℤ) : ℕ :=
  (max 0 (min i ((bound : ℤ) - 1))).toNat

/-- Linear interpolation between two rationals. -/
def lerpQ (a b t : ℚ) : ℚ := a + (b - a) * t

/-- Linear interpolation between two pixels. -/
def lerpRGB (p q : RGB) (t : ℚ) : RGB :=
  ⟨lerpQ p.r q.r t, lerpQ p.g q.g t, lerpQ p.b q.b t⟩

/-- Modelled from the external imaging library: Image.resize of PIL to
size x size with bilinear interpolation (dinov2.py line 302), as center
aligned sampling interpolating the four surrounding source pixels. -/
def resizeBilinear (px : List (List RGB)) (size : ℕ) : List (List RGB) :=
  let h := px.length
  let w := (px.headD []).length
  (List.range size).map fun i =>
    (List.range size).map fun j =>
      let y : ℚ := (((i : ℚ) + 1/2) * h) / size - 1/2
      let x : ℚ := (((j : ℚ) + 1/2) * w) / size - 1/2
      let y0 : ℤ := Int.floor y
      let x0 : ℤ := Int.floor x
      let ty : ℚ := y - y0
      let tx : ℚ := x - x0
      let p00 := getPixel px (clampCoord h y0) (clampCoord w x0)
      let p01 := getPixel px (clampCoord h y0) (clampCoord w (x0 + 1))
      let p10 := getPixel px (clampCoord h (y0 + 1)) (clampCoord w x0)
      let p11 := getPixel px (clampCoord h (y0 + 1)) (clampCoord w (x0 + 1))
      lerpRGB (lerpRGB p00 p01 tx) (lerpRGB p10 p11 tx) ty

/-- Modelled from the external imaging library: Image.fromarray plus
image.convert to RGB (dinov2.py lines 297-301); a value that cannot be
converted to 3-channel color data raises. -/
def convertRGB : ImageValue → Except PyError (List (List RGB))
  | .decodable px => .ok px
  | .undecodable m => .error (.decodeError m)

/-- Embedding of preprocess (dinov2.py lines 284-314): convert to RGB,
resize to image_size x image_size bilinearly, scale intensities by 1/255,
normalize per channel with mean and std, rearrange to channel-first
layout, and add a leading batch dimension.  The object state is threaded
through unchanged, mirroring that the method body assigns no attribute. -/
def DINOv2Inference.preprocess (st : DINOv2Inference) (image : ImageValue) :
    Except PyError Tensor × DINOv2Inference :=
  match convertRGB image with
  | .error e => (.error e, st)
  | .ok px =>
      let resized := resizeBilinear px st.image_size
      let scaled := resized.map fun row => row.map fun p =>
        (⟨p.r / 255, p.g / 255, p.b / 255⟩ : RGB)
      let normalized := scaled.map fun row => row.map fun p =>
        (⟨(p.r - st.mean.r) / st.std.r,
          (p.g - st.mean.g) / st.std.g,
          (p.b - st.mean.b) / st.std.b⟩ : RGB)
      let chw := [normalized.map (List.map RGB.r),
                  normalized.map (List.map RGB.g),
                  normalized.map (List.map RGB.b)]
      (.ok [chw], st)

/-- Observable outputs of the external inference collaborators during one
request: successive time.time() readings and the values computed by the
onnx session run and by the torch forward pass on a given input tensor. -/
structure InferEnv where
  clock : ℕ → ℚ
  onnx_run : Tensor → List ℚ
  torch_cls : Tensor → List ℚ
  torch_attentions : Tensor → List AttentionMap
  torch_patches : Tensor → List (List ℚ)

/-- Embedding of _extract_features_sync (dinov2.py lines 349-390):
preprocess, then run either the onnx session (attention maps and patch
features locally None) or the torch forward pass, and assemble the
InferenceResult; the attention and patch fields of the result are gated
once more on the request flags, as in the source assembly (lines
388-389).  Returns the result or the propagated exception, the threaded
object state, and the instrumentation counters. -/
def DINOv2Inference._extract_features_sync (st : DINOv2Inference) (env : InferEnv)
    (image : ImageValue) (return_attention return_patches : Bool) :
    Except PyError InferenceResult × DINOv2Inference × Effects :=
  let preprocessing_time := (env.clock 2 - env.clock 1) * 1000
  let pre := st.preprocess image
  match pre.1 with
  | .error e => (.error e, pre.2, ⟨1, 0⟩)
  | .ok input_tensor =>
      let st2 := pre.2
      let inference_time := (env.clock 4 - env.clock 3) * 1000
      let total_time := (env.clock 5 - env.clock 0) * 1000
      if st2.ort_session then
        let embedding := env.onnx_run input_tensor
        let attention_maps : Option (List AttentionMap) := none
        let patch_features : Option (List (List ℚ)) := none
        (.ok { embedding := embedding
               dimension := st2.embedding_dim
               model_name := st2.model_name
               model_version := st2.model_version
               preprocessing_time_ms := preprocessing_time
               inference_time_ms := inference_time
               total_time_ms := total_time
               attention_maps := if return_attention then attention_maps else none
               patch_features := if return_patches then patch_features else none },
         st2, ⟨1, 1⟩)
      else
        let embedding := env.torch_cls input_tensor
        let obtained := if return_attention then env.torch_attentions input_tensor else []
        let attention_maps : Option (List AttentionMap) :=
          if return_attention && !obtained.isEmpty then some obtained else none
        let patch_features : Option (List (List ℚ)) :=
          if return_patches then some (env.torch_patches input_tensor) else none
        (.ok { embedding := embedding
               dimension := st2.embedding_dim
               model_name := st2.model_name
               model_version := st2.model_version
               preprocessing_time_ms := preprocessing_time
               inference_time_ms := inference_time
               total_time_ms := total_time
               attention_maps := if return_attention then attention_maps else none
               patch_features := if return_patches then patch_features else none },
         st2, ⟨1, 1⟩)

/-- Embedding of extract_features (dinov2.py lines 316-347): raise the
not-loaded error before any work when load() has not succeeded, else run
the synchronous extraction off the event loop. -/
def DINOv2Inference.extract_features (st : DINOv2Inference) (env : InferEnv)
    (image : ImageValue) (return_attention return_patches : Bool) :
    Except PyError InferenceResult × DINOv2Inference × Effects :=
  if !st.is_loaded then
    (.error .notLoaded, st, ⟨0, 0⟩)
  else
    st._extract_features_sync env image return_attention return_patches

/-- Warmup timing statistics (dinov2.py lines 509-514): the dictionary
returned by warmup has exactly these four keys. -/
structure WarmupStats where
  first_inference_ms : ℚ
  avg_inference_ms : ℚ
  min_inference_ms : ℚ
  max_inference_ms : ℚ
deriving DecidableEq

/-- np.mean over a list of rationals. -/
def npMean (l : List ℚ) : ℚ := l.sum / l.length

/-- np.min over a list of rationals (0 on the empty list, which the
source guards against). -/
def npMin : List ℚ → ℚ
  | [] => 0
  | x :: xs => xs.foldl min x

/-- np.max over a list of rationals (0 on the empty list, which the
source guards against). -/
def npMax : List ℚ → ℚ
  | [] => 0
  | x :: xs => xs.foldl max x

/-- The statistics dictionary built at dinov2.py lines 509-514: every
entry falls back to 0 when the latency list is empty. -/
def warmupStats (latencies : List ℚ) : WarmupStats :=
  { first_inference_ms := latencies.headD 0
    avg_inference_ms := if latencies.isEmpty then 0 else npMean latencies
    min_inference_ms := if latencies.isEmpty then 0 else npMin latencies
    max_inference_ms := if latencies.isEmpty then 0 else npMax latencies }

/-- One iteration of the warmup loop body (dinov2.py lines 497-507):
read the clock, run one forward pass through the onnx session or the
torch model, read the clock again, and record the elapsed milliseconds.
When neither backend object is set the forward pass dereferences an
absent attribute and raises. -/
def DINOv2Inference.warmupIter (st : DINOv2Inference) (clock : ℕ → ℚ) (i : ℕ) :
    Except PyError ℚ :=
  if st.ort_session then
    .ok ((clock (2 * i + 1) - clock (2 * i)) * 1000)
  else if st.model_set then
    .ok ((clock (2 * i + 1) - clock (2 * i)) * 1000)
  else
    .error .attributeError

/-- The warmup loop over the iteration indices, collecting latencies and
propagating the first raised exception. -/
def runWarmupLoop (st : DINOv2Inference) (clock : ℕ → ℚ) : List ℕ → Except PyError (List ℚ)
  | [] => .ok []
  | i :: is =>
      match st.warmupIter clock i with
      | .error e => .error e
      | .ok lat =>
          match runWarmupLoop st clock is with
          | .error e => .error e
          | .ok rest => .ok (lat :: rest)

/-- Embedding of warmup (dinov2.py lines 478-517): run the loop body for
i in range(iterations) and build the statistics dictionary from the
collected latencies.  The second component counts the forward passes
performed (one per completed iteration). -/
def DINOv2Inference.warmup (st : DINOv2Inference) (clock : ℕ → ℚ) (iterations : ℕ) :
    Except PyError (WarmupStats × ℕ) :=
  match runWarmupLoop st clock (List.range iterations) with
  | .error e => .error e
  | .ok latencies => .ok (warmupStats latencies, latencies.length)

/-- The consecutive chunks taken by the loop of extract_features_batch
(dinov2.py lines 466-467): for i in range(0, len(images), batch_size)
with batch = images[i : i + batch_size].  A step of 0 raises ValueError
in Python; the embedding is only used under batch_size at least 1. -/
def batchChunksAux (fuel : ℕ) (l : List α) (batch_size : ℕ) : List (List α) :=
  match fuel with
  | 0 => []
  | fuel + 1 =>
      match l, batch_size with
      | [], _ => []
      | _ :: _, 0 => []
      | x :: xs, n + 1 => ((x :: xs).take (n + 1)) :: batchChunksAux fuel (xs.drop n) (n + 1)

/-- The chunk list, computed with fuel equal to the list length, which
the flattening lemma below shows is always sufficient. -/
def batchChunks (l : List α) (batch_size : ℕ) : List (List α) :=
  batchChunksAux l.length l batch_size

/-- Embedding of extract_features_batch (dinov2.py lines 443-476): for
each consecutive chunk, run the per-image call concurrently via
asyncio.gather, which returns its results in argument order, and extend
the accumulated result list.  The per-image call (self.extract_features
with default flags) is a parameter of the embedding. -/
def extract_features_batch (call : α → β) (images : List α) (batch_size : ℕ) : List β :=
  (batchChunks images batch_size).foldl (fun results batch => results ++ batch.map call) []

/-- One value of the model registry dictionary built by load_models
(server.py lines 181-186). -/
structure ModelEntry where
  model_id : String
  model_name : String
  state : String
  device : String
deriving DecidableEq

/-- Application state container of server.py lines 94-111, instrumented
with counters for how many DINOv2Inference.load() and warmup() calls the
lifecycle has completed. -/
structure AppState where
  models_loaded : Bool
  loaded_models : List (String × ModelEntry)
  backend_load_calls : ℕ
  warmup_calls : ℕ
deriving DecidableEq

/-- Initial AppState (server.py lines 97-104): no models, not loaded, and
no backend load or warmup has run. -/
def AppState.init : AppState :=
  { models_loaded := false
    loaded_models := []
    backend_load_calls := 0
    warmup_calls := 0 }

/-- Dictionary assignment d[k] = v on an association list. -/
def setKey (k : String) (v : ModelEntry) : List (String × ModelEntry) → List (String × ModelEntry)
  | [] => [(k, v)]
  | (k2, v2) :: rest => if k2 = k then (k, v) :: rest else (k2, v2) :: setKey k v rest

/-- Dictionary lookup d.get(k) on an association list. -/
def getKey (k : String) : List (String × ModelEntry) → Option ModelEntry
  | [] => none
  | (k2, v2) :: rest => if k2 = k then some v2 else getKey k rest

/-- Embedding of load_models (server.py lines 160-193): the body is a
placeholder that inserts a hard-coded entry with state ready for the
dinov2 id and sets models_loaded, performing no Backend load and no
warmup (the comment at lines 174-179 lists those as the intended
production steps); the instrumentation counters are therefore left
untouched. -/
def load_models (device : String) (st : AppState) : AppState :=
  { st with
    loaded_models := setKey "dinov2"
      ⟨"dinov2-base", "facebook/dinov2-base", "ready", device⟩ st.loaded_models
    models_loaded := true }

/-- Embedding of unload_models (server.py lines 196-200). -/
def unload_models (st : AppState) : AppState :=
  { st with loaded_models := [], models_loaded := false }

/-- Per-model status record of the readiness response (server.py lines
61-68). -/
structure ModelStatusResponse where
  model_id : String
  model_name : String
  state : String
  ready : Bool
  device : Option String
deriving DecidableEq

/-- Body of the readiness response (server.py lines 71-75). -/
structure ModelsReadyResponse where
  ready : Bool
  models : List ModelStatusResponse
deriving DecidableEq

/-- Embedding of readiness_check (server.py lines 282-306): the endpoint
body raises nothing, so FastAPI always responds with HTTP status 200; the
body carries ready equal to the models_loaded flag and one status record
per registry entry. -/
def readiness_check (st : AppState) : ℕ × ModelsReadyResponse :=
  (200,
   { ready := st.models_loaded
     models := st.loaded_models.map fun kv =>
       { model_id := kv.2.model_id
         model_name := kv.2.model_name
         state := kv.2.state
         ready := kv.2.state == "ready"
         device := some kv.2.device } })

/-- Embedding of startup_check (server.py lines 309-327): raises
HTTPException 503 while models_loaded is false, else responds 200. -/
def startup_check (st : AppState) : ℕ :=
  if !st.models_loaded then 503 else 200

/-- The preprocess body assigns no attribute: the object state after the
call is the state before it, on every input. -/
theorem preprocess_state (st : DINOv2Inference) (image : ImageValue) :
    (st.preprocess image).2 = st := by
  cases image <;> rfl

/-- Neither extract_features branch assigns an attribute: the object
state is returned unchanged. -/
theorem extract_features_preserves_state (st : DINOv2Inference) (env : InferEnv)
    (image : ImageValue) (ra rp : Bool) :
    (st.extract_features env image ra rp).2.1 = st := by
  simp only [DINOv2Inference.extract_features, DINOv2Inference._extract_features_sync]
  split
  · rfl
  · split
    · simp [preprocess_state]
    · split <;> simp [preprocess_state]

/-- A fresh extractor built with the default configuration of config.py
(cpu device so that fp16 stays off). -/
def freshExtractor : DINOv2Inference :=
  DINOv2Inference.init "facebook/dinov2-base" none none "cpu" false 224

/-- An extractor in the state reached after a successful torch load. -/
def loadedTorchExtractor : DINOv2Inference :=
  { freshExtractor with model_set := true, is_loaded := true, model_version := "pretrained" }

/-- An extractor in the state reached after a successful onnx load. -/
def loadedOnnxExtractor : DINOv2Inference :=
  { freshExtractor with ort_session := true, is_loaded := true, model_version := "onnx" }

/-- An inference environment with trivial collaborator outputs. -/
def sampleEnv : InferEnv :=
  { clock := fun _ => 0
    onnx_run := fun _ => [1, 2]
    torch_cls := fun _ => [1, 2]
    torch_attentions := fun _ => [[[[1]]]]
    torch_patches := fun _ => [[1]] }

/-- A decodable one-pixel image. -/
def sampleImage : ImageValue := .decodable [[⟨255, 0, 0⟩]]

/-- C1: the claim says no registry entry is ever visible as READY (and
global readiness is never true) before Backend.load() and the configured
warmup both succeed.  The code violates this: load_models is a
placeholder that publishes the dinov2 entry with state ready and sets
models_loaded without ever invoking DINOv2Inference.load() or warmup(),
as this evaluation of the startup transition shows. -/
theorem load_models_ready_without_load_or_warmup :
    (load_models "cuda" AppState.init).models_loaded = true ∧
    getKey "dinov2" (load_models "cuda" AppState.init).loaded_models =
      some ⟨"dinov2-base", "facebook/dinov2-base", "ready", "cuda"⟩ ∧
    (load_models "cuda" AppState.init).backend_load_calls = 0 ∧
    (load_models "cuda" AppState.init).warmup_calls = 0 := by
  decide

/-- C6: the claim says the readiness check returns a non-success code
whenever some configured model is not READY.  The code violates this: the
endpoint body raises nothing, so even at process start, when the
configured dinov2 model has no registry entry at all and the body reports
ready false, the HTTP status is the success code 200. -/
theorem readiness_success_code_when_not_ready :
    (readiness_check AppState.init).1 = 200 ∧
    (readiness_check AppState.init).2.ready = false ∧
    (readiness_check AppState.init).2.models = [] ∧
    getKey "dinov2" AppState.init.loaded_models = none := by
  decide

/-- C4: calling extract_features before load() has succeeded fails with
the defined not-loaded error, leaves the object state unchanged, and
performs no preprocessing and no forward pass. -/
theorem extract_features_not_loaded (st : DINOv2Inference) (env : InferEnv)
    (image : ImageValue) (ra rp : Bool) (h : st.is_loaded = false) :
    st.extract_features env image ra rp = (.error .notLoaded, st, ⟨0, 0⟩) := by
  unfold DINOv2Inference.extract_features
  simp [h]

/-- C4 witness: a freshly constructed extractor is not loaded, and a call
on it fails exactly as stated. -/
theorem extract_features_not_loaded_witness :
    freshExtractor.is_loaded = false ∧
    freshExtractor.extract_features sampleEnv sampleImage false false =
      (.error .notLoaded, freshExtractor, ⟨0, 0⟩) :=
  ⟨rfl, extract_features_not_loaded freshExtractor sampleEnv sampleImage false false rfl⟩

/-- C9: an input that cannot be converted to 3-channel color data makes
preprocess fail with the decode error; the failure also propagates
through extract_features for that request only: the object state (in
particular is_loaded) is unchanged and no forward pass runs, so the model
keeps serving subsequent requests. -/
theorem preprocess_undecodable_decode_error (st : DINOv2Inference) (env : InferEnv)
    (s : String) (ra rp : Bool) (h : st.is_loaded = true) :
    st.preprocess (.undecodable s) = (.error (.decodeError s), st) ∧
    st.extract_features env (.undecodable s) ra rp = (.error (.decodeError s), st, ⟨1, 0⟩) := by
  refine ⟨rfl, ?_⟩
  unfold DINOv2Inference.extract_features DINOv2Inference._extract_features_sync
  simp [h, DINOv2Inference.preprocess, convertRGB]

/-- C9 witness: a loaded extractor given an undecodable value fails with
the decode error exactly as stated. -/
theorem preprocess_undecodable_decode_error_witness :
    loadedTorchExtractor.is_loaded = true ∧
    (loadedTorchExtractor.preprocess (.undecodable "not an image") =
      (.error (.decodeError "not an image"), loadedTorchExtractor) ∧
    loadedTorchExtractor.extract_features sampleEnv (.undecodable "not an image") false false =
      (.error (.decodeError "not an image"), loadedTorchExtractor, ⟨1, 0⟩)) :=
  ⟨rfl, preprocess_undecodable_decode_error loadedTorchExtractor sampleEnv "not an image"
    false false rfl⟩

/-- C8: preprocess is pure and deterministic: its output depends only on
the image and the configuration (image_size, mean, std) and on nothing
else in the object state, and the call leaves the object state
unchanged. -/
theorem preprocess_pure_deterministic (st1 st2 : DINOv2Inference) (image : ImageValue)
    (hsz : st1.image_size = st2.image_size) (hm : st1.mean = st2.mean)
    (hs : st1.std = st2.std) :
    (st1.preprocess image).1 = (st2.preprocess image).1 ∧
    (st1.preprocess image).2 = st1 := by
  cases image with
  | undecodable m => exact ⟨rfl, rfl⟩
  | decodable px =>
      refine ⟨?_, rfl⟩
      simp only [DINOv2Inference.preprocess, convertRGB]
      rw [hsz, hm, hs]

/-- C8 witness: a fresh and a loaded extractor share the configuration,
so preprocess gives bit-identical outputs on the sample image and leaves
the state alone. -/
theorem preprocess_pure_deterministic_witness :
    (freshExtractor.preprocess sampleImage).1 =
      (loadedTorchExtractor.preprocess sampleImage).1 ∧
    (freshExtractor.preprocess sampleImage).2 = freshExtractor :=
  preprocess_pure_deterministic freshExtractor loadedTorchExtractor sampleImage rfl rfl rfl

/-- The all-zero statistics record. -/
def zeroWarmupStats : WarmupStats :=
  { first_inference_ms := 0
    avg_inference_ms := 0
    min_inference_ms := 0
    max_inference_ms := 0 }

/-- C10: warmup with zero iterations on a loaded extractor raises no
error, performs no forward pass, and returns the four statistics all
exactly 0. -/
theorem warmup_zero_iterations (st : DINOv2Inference) (clock : ℕ → ℚ)
    (_h : st.is_loaded = true) :
    st.warmup clock 0 = .ok (zeroWarmupStats, 0) := by
  rfl

/-- C10 witness: on a concrete loaded extractor with a concrete clock,
warmup of zero iterations returns all-zero statistics and zero
passes. -/
theorem warmup_zero_iterations_witness :
    loadedTorchExtractor.is_loaded = true ∧
    loadedTorchExtractor.warmup (fun _ => 0) 0 = .ok (zeroWarmupStats, 0) :=
  ⟨rfl, warmup_zero_iterations loadedTorchExtractor (fun _ => 0) rfl⟩

/-- The attention field of an extraction outcome is absent: trivially so
on a raised exception, and equal to None on a returned result. -/
def attnIsNone : Except PyError InferenceResult → Prop
  | .error _ => True
  | .ok r => r.attention_maps = none

/-- C3: whenever the onnx session is the active backend, any result
returned by extract_features carries attention_maps equal to None,
whatever the request flags are. -/
theorem onnx_attention_always_none (st : DINOv2Inference) (env : InferEnv)
    (image : ImageValue) (ra rp : Bool) (h : st.ort_session = true) :
    attnIsNone (st.extract_features env image ra rp).1 := by
  simp only [DINOv2Inference.extract_features, DINOv2Inference._extract_features_sync]
  split
  · simp [attnIsNone]
  · split
    · simp [attnIsNone]
    · rw [preprocess_state, h]
      cases ra <;> simp [attnIsNone]

/-- C3 witness: a loaded onnx extractor, asked for attention maps on a
concrete image, produces a result whose attention field is None; the
second conjunct checks by evaluation that the call really returns a
result rather than raising. -/
theorem onnx_attention_always_none_witness :
    attnIsNone (loadedOnnxExtractor.extract_features sampleEnv sampleImage true false).1 ∧
    (loadedOnnxExtractor.extract_features sampleEnv sampleImage true false).2.2 = ⟨1, 1⟩ :=
  ⟨onnx_attention_always_none loadedOnnxExtractor sampleEnv sampleImage true false rfl,
   by decide⟩

/-- C7: for a freshly constructed extractor, _load_sync selects the onnx
backend exactly when the onnx path is configured (truthy) and the
artifact exists on disk, and otherwise the torch backend; and the loaded
backend is immutable afterwards: extract_features hands the object state
back unchanged. -/
theorem backend_selection_at_load (name : String) (cp op : Option String) (dev : String)
    (fp : Bool) (sz : ℕ) (env : LoadEnv) (ienv : InferEnv) (image : ImageValue)
    (ra rp : Bool) :
    (((DINOv2Inference.init name cp op dev fp sz)._load_sync env).ort_session = true ↔
      (truthyPath op = true ∧ env.fileExists (op.getD "") = true)) ∧
    ((((DINOv2Inference.init name cp op dev fp sz)._load_sync env).extract_features
        ienv image ra rp).2.1 =
      (DINOv2Inference.init name cp op dev fp sz)._load_sync env) := by
  refine ⟨?_, extract_features_preserves_state _ _ _ _ _⟩
  unfold DINOv2Inference._load_sync DINOv2Inference._load_onnx DINOv2Inference._load_pytorch
  by_cases ht : truthyPath op = true <;>
    by_cases hf : env.fileExists (op.getD "") = true <;>
      simp [DINOv2Inference.init, ht, hf]

/-- With fuel at least the list length, the chunks concatenate back to
the whole list: the loop visits every image exactly once, in order. -/
theorem batchChunksAux_flatten (fuel : ℕ) :
    ∀ (l : List α) (m : ℕ), l.length ≤ fuel →
      (batchChunksAux fuel l (m + 1)).flatten = l := by
  induction fuel with
  | zero =>
      intro l m hl
      have h0 : l = [] := List.eq_nil_of_length_eq_zero (Nat.le_zero.mp hl)
      subst h0
      rfl
  | succ fuel ih =>
      intro l m hl
      cases l with
      | nil => rfl
      | cons x xs =>
          have hlen : (xs.drop m).length ≤ fuel := by
            simp only [List.length_drop]
            simp only [List.length_cons] at hl
            omega
          show (((x :: xs).take (m + 1)) ::
              batchChunksAux fuel (xs.drop m) (m + 1)).flatten = x :: xs
          rw [List.flatten_cons, ih (xs.drop m) m hlen, ← List.drop_succ_cons,
            List.take_append_drop]

/-- Every chunk produced by the loop has at most batch_size elements. -/
theorem batchChunksAux_length_le (fuel : ℕ) :
    ∀ (l : List α) (m : ℕ), ∀ c ∈ batchChunksAux fuel l (m + 1), c.length ≤ m + 1 := by
  induction fuel with
  | zero => intro l m c hc; cases hc
  | succ fuel ih =>
      intro l m c hc
      cases l with
      | nil => cases hc
      | cons x xs =>
          rcases List.mem_cons.mp hc with h | h
          · subst h
            simp only [List.length_take, List.length_cons]
            omega
          · exact ih (xs.drop m) m c h

/-- Every chunk except possibly the last has exactly batch_size
elements. -/
theorem batchChunksAux_dropLast (fuel : ℕ) :
    ∀ (l : List α) (m : ℕ), l.length ≤ fuel →
      ∀ c ∈ (batchChunksAux fuel l (m + 1)).dropLast, c.length = m + 1 := by
  induction fuel with
  | zero =>
      intro l m hl c hc
      have h0 : l = [] := List.eq_nil_of_length_eq_zero (Nat.le_zero.mp hl)
      subst h0
      cases hc
  | succ fuel ih =>
      intro l m hl c hc
      cases l with
      | nil => cases hc
      | cons x xs =>
          have hxs : xs.length ≤ fuel := by
            simp only [List.length_cons] at hl
            omega
          have hlen : (xs.drop m).length ≤ fuel := by
            simp only [List.length_drop]
            omega
          replace hc : c ∈ (((x :: xs).take (m + 1)) ::
              batchChunksAux fuel (xs.drop m) (m + 1)).dropLast := hc
          cases hdrop : xs.drop m with
          | nil =>
              have hrest : batchChunksAux fuel (xs.drop m) (m + 1) = ([] : List (List α)) := by
                rw [hdrop]
                cases fuel <;> rfl
              rw [hrest] at hc
              cases hc
          | cons y ys =>
              have hmlt : m < xs.length := by
                by_contra hge
                rw [List.drop_eq_nil_of_le (by omega)] at hdrop
                cases hdrop
              cases fuel with
              | zero =>
                  rw [hdrop] at hlen
                  simp at hlen
              | succ fuel2 =>
                  have hrest_ne :
                      batchChunksAux (fuel2 + 1) (xs.drop m) (m + 1) ≠ ([] : List (List α)) := by
                    rw [hdrop]
                    intro hcontra
                    cases hcontra
                  rw [List.dropLast_cons_of_ne_nil hrest_ne] at hc
                  rcases List.mem_cons.mp hc with h | h
                  · subst h
                    simp only [List.length_take, List.length_cons]
                    omega
                  · exact ih (xs.drop m) m hlen c h

/-- Unrolling the accumulating loop of extract_features_batch: extending
an accumulator chunk by chunk concatenates the per-chunk results after
it. -/
theorem foldl_extend_eq (call : α → β) (chunks : List (List α)) (acc : List β) :
    chunks.foldl (fun results batch => results ++ batch.map call) acc =
      acc ++ (chunks.map (fun b => b.map call)).flatten := by
  induction chunks generalizing acc with
  | nil => simp
  | cons c cs ih => simp [ih, List.append_assoc]

/-- Mapping the per-image call over every chunk and flattening equals
flattening first and mapping once. -/
theorem flatten_map_map (call : α → β) (chunks : List (List α)) :
    (chunks.map (fun b => b.map call)).flatten = chunks.flatten.map call := by
  induction chunks with
  | nil => rfl
  | cons c cs ih => simp only [List.map_cons, List.flatten_cons, List.map_append, ih]

/-- C2: for batch_size at least 1, extract_features_batch returns
exactly the per-image results in input order (same length, same order),
the chunks it processes partition the input into consecutive pieces, each
chunk has at most batch_size elements and every non-final chunk exactly
batch_size; concretely, 10 images with batch_size 4 give chunks of sizes
4, 4, 2. -/
theorem extract_features_batch_order (call : α → β) (images : List α) (bs : ℕ)
    (hbs : 1 ≤ bs) :
    extract_features_batch call images bs = images.map call ∧
    (batchChunks images bs).flatten = images ∧
    (∀ c ∈ batchChunks images bs, c.length ≤ bs) ∧
    (∀ c ∈ (batchChunks images bs).dropLast, c.length = bs) ∧
    (batchChunks (List.range 10) 4).map List.length = [4, 4, 2] := by
  obtain ⟨m, rfl⟩ : ∃ m, bs = m + 1 := ⟨bs - 1, by omega⟩
  have hflat : (batchChunks images (m + 1)).flatten = images :=
    batchChunksAux_flatten images.length images m (le_refl _)
  refine ⟨?_, hflat, batchChunksAux_length_le images.length images m,
    batchChunksAux_dropLast images.length images m (le_refl _), by decide⟩
  unfold extract_features_batch
  rw [foldl_extend_eq, flatten_map_map]
  rw [show batchChunks images (m + 1) = batchChunksAux images.length images (m + 1) from rfl]
    at hflat
  rw [show (batchChunks images (m + 1)) = batchChunksAux images.length images (m + 1) from rfl]
  rw [hflat]
  simp

/-- C2 witness: with 10 concrete images and batch_size 4, evaluation
gives results in input order with chunk sizes 4, 4, 2. -/
theorem extract_features_batch_order_witness :
    1 ≤ 4 ∧
    (extract_features_batch (fun n => n + 1) (List.range 10) 4 =
        (List.range 10).map (fun n => n + 1) ∧
      (batchChunks (List.range 10) 4).flatten = List.range 10 ∧
      (∀ c ∈ batchChunks (List.range 10) 4, c.length ≤ 4) ∧
      (∀ c ∈ (batchChunks (List.range 10) 4).dropLast, c.length = 4) ∧
      (batchChunks (List.range 10) 4).map List.length = [4, 4, 2]) :=
  ⟨by decide, extract_features_batch_order (fun n => n + 1) (List.range 10) 4 (by decide)⟩

/-- Folding min never exceeds its starting value. -/
theorem foldl_min_le_init (xs : List ℚ) (a : ℚ) : xs.foldl min a ≤ a := by
  induction xs generalizing a with
  | nil => exact le_refl a
  | cons x xs ih => exact le_trans (ih (min a x)) (min_le_left a x)

/-- Folding min never exceeds any traversed element. -/
theorem foldl_min_le_mem (xs : List ℚ) (a y : ℚ) (hy : y ∈ xs) : xs.foldl min a ≤ y := by
  induction xs generalizing a with
  | nil => cases hy
  | cons x xs ih =>
      rcases List.mem_cons.mp hy with h | h
      · subst h
        exact le_trans (foldl_min_le_init xs (min a y)) (min_le_right a y)
      · exact ih (min a x) h

/-- A lower bound of the start and of every element bounds the fold. -/
theorem le_foldl_min (xs : List ℚ) (a b : ℚ) (ha : b ≤ a) (h : ∀ y ∈ xs, b ≤ y) :
    b ≤ xs.foldl min a := by
  induction xs generalizing a with
  | nil => exact ha
  | cons x xs ih =>
      exact ih (min a x) (le_min ha (h x (List.mem_cons_self x xs)))
        (fun y hy => h y (List.mem_cons_of_mem x hy))

/-- Folding max is at least its starting value. -/
theorem init_le_foldl_max (xs : List ℚ) (a : ℚ) : a ≤ xs.foldl max a := by
  induction xs generalizing a with
  | nil => exact le_refl a
  | cons x xs ih => exact le_trans (le_max_left a x) (ih (max a x))

/-- Folding max is at least any traversed element. -/
theorem mem_le_foldl_max (xs : List ℚ) (a y : ℚ) (hy : y ∈ xs) : y ≤ xs.foldl max a := by
  induction xs generalizing a with
  | nil => cases hy
  | cons x xs ih =>
      rcases List.mem_cons.mp hy with h | h
      · subst h
        exact le_trans (le_max_right a y) (init_le_foldl_max xs (max a y))
      · exact ih (max a x) h

/-- An upper bound of the start and of every element bounds the fold. -/
theorem foldl_max_le (xs : List ℚ) (a b : ℚ) (ha : a ≤ b) (h : ∀ y ∈ xs, y ≤ b) :
    xs.foldl max a ≤ b := by
  induction xs generalizing a with
  | nil => exact ha
  | cons x xs ih =>
      exact ih (max a x) (max_le ha (h x (List.mem_cons_self x xs)))
        (fun y hy => h y (List.mem_cons_of_mem x hy))

/-- A uniform lower bound of the elements bounds the sum from below by
length times the bound. -/
theorem mul_length_le_sum (l : List ℚ) (b : ℚ) (h : ∀ y ∈ l, b ≤ y) :
    (l.length : ℚ) * b ≤ l.sum := by
  induction l with
  | nil => simp
  | cons x xs ih =>
      have hxs := ih (fun y hy => h y (List.mem_cons_of_mem x hy))
      have hx := h x (List.mem_cons_self x xs)
      simp only [List.length_cons, List.sum_cons, Nat.cast_add, Nat.cast_one]
      nlinarith [hxs, hx]

/-- A uniform upper bound of the elements bounds the sum from above by
length times the bound. -/
theorem sum_le_mul_length (l : List ℚ) (b : ℚ) (h : ∀ y ∈ l, y ≤ b) :
    l.sum ≤ (l.length : ℚ) * b := by
  induction l with
  | nil => simp
  | cons x xs ih =>
      have hxs := ih (fun y hy => h y (List.mem_cons_of_mem x hy))
      have hx := h x (List.mem_cons_self x xs)
      simp only [List.length_cons, List.sum_cons, Nat.cast_add, Nat.cast_one]
      nlinarith [hxs, hx]

/-- On a nonempty list of nonnegative latencies, the four statistics of
the warmup dictionary are nonnegative and the average lies between the
minimum and the maximum. -/
theorem warmupStats_bounds (l : List ℚ) (hne : l ≠ []) (hpos : ∀ y ∈ l, 0 ≤ y) :
    0 ≤ (warmupStats l).first_inference_ms ∧
    0 ≤ (warmupStats l).avg_inference_ms ∧
    0 ≤ (warmupStats l).min_inference_ms ∧
    0 ≤ (warmupStats l).max_inference_ms ∧
    (warmupStats l).min_inference_ms ≤ (warmupStats l).avg_inference_ms ∧
    (warmupStats l).avg_inference_ms ≤ (warmupStats l).max_inference_ms := by
  match l, hne with
  | x :: xs, _ =>
      have hempty : (x :: xs).isEmpty = false := rfl
      have hx : (0 : ℚ) ≤ x := hpos x (List.mem_cons_self x xs)
      have hlenpos : (0 : ℚ) < ((x :: xs).length : ℚ) := by
        simp only [List.length_cons]
        positivity
      have hminmem : ∀ y ∈ x :: xs, npMin (x :: xs) ≤ y := by
        intro y hy
        rcases List.mem_cons.mp hy with h | h
        · subst h
          exact foldl_min_le_init xs y
        · exact foldl_min_le_mem xs x y h
      have hmaxmem : ∀ y ∈ x :: xs, y ≤ npMax (x :: xs) := by
        intro y hy
        rcases List.mem_cons.mp hy with h | h
        · subst h
          exact init_le_foldl_max xs y
        · exact mem_le_foldl_max xs x y h
      have hminpos : 0 ≤ npMin (x :: xs) := le_foldl_min xs x 0 hx
        (fun y hy => hpos y (List.mem_cons_of_mem x hy))
      have hmaxpos : 0 ≤ npMax (x :: xs) := le_trans hx (init_le_foldl_max xs x)
      have hminavg : npMin (x :: xs) ≤ npMean (x :: xs) := by
        rw [npMean, le_div_iff₀ hlenpos, mul_comm]
        exact mul_length_le_sum (x :: xs) (npMin (x :: xs)) hminmem
      have havgmax : npMean (x :: xs) ≤ npMax (x :: xs) := by
        rw [npMean, div_le_iff₀ hlenpos, mul_comm]
        exact sum_le_mul_length (x :: xs) (npMax (x :: xs)) hmaxmem
      refine ⟨?_, ?_, ?_, ?_, ?_, ?_⟩ <;>
        simp only [warmupStats, hempty, List.headD_cons, Bool.false_eq_true, if_false]
      · exact hx
      · exact le_trans hminpos hminavg
      · exact hminpos
      · exact hmaxpos
      · exact hminavg
      · exact havgmax

/-- When a backend object is present, every warmup iteration completes
and records the elapsed clock difference in milliseconds. -/
theorem runWarmupLoop_ok (st : DINOv2Inference) (clock : ℕ → ℚ)
    (hb : st.ort_session = true ∨ st.model_set = true) (is : List ℕ) :
    runWarmupLoop st clock is =
      .ok (is.map (fun i => (clock (2 * i + 1) - clock (2 * i)) * 1000)) := by
  induction is with
  | nil => rfl
  | cons i is ih =>
      unfold runWarmupLoop DINOv2Inference.warmupIter
      rcases hb with h | h
      · simp [h, ih]
      · by_cases ho : st.ort_session = true
        · simp [ho, ih]
        · simp only [Bool.not_eq_true] at ho
          simp [ho, h, ih]

/-- C5: for a positive number of iterations on an extractor with a
backend object, under a monotone wall clock, warmup returns a statistics
record (a dictionary with exactly the four keys first, avg, min, max,
since WarmupStats has exactly those fields) after n forward passes, all
four statistics are nonnegative and min le avg le max. -/
theorem warmup_stats_bounds (st : DINOv2Inference) (clock : ℕ → ℚ) (n : ℕ)
    (hn : 0 < n) (hmono : Monotone clock)
    (hb : st.ort_session = true ∨ st.model_set = true) :
    ∃ stats : WarmupStats, st.warmup clock n = .ok (stats, n) ∧
      0 ≤ stats.first_inference_ms ∧ 0 ≤ stats.avg_inference_ms ∧
      0 ≤ stats.min_inference_ms ∧ 0 ≤ stats.max_inference_ms ∧
      stats.min_inference_ms ≤ stats.avg_inference_ms ∧
      stats.avg_inference_ms ≤ stats.max_inference_ms := by
  have hloop := runWarmupLoop_ok st clock hb (List.range n)
  have hlats_ne : (List.range n).map
      (fun i => (clock (2 * i + 1) - clock (2 * i)) * 1000) ≠ [] := by
    simp only [ne_eq, List.map_eq_nil_iff, List.range_eq_nil]
    omega
  have hlats_pos : ∀ y ∈ (List.range n).map
      (fun i => (clock (2 * i + 1) - clock (2 * i)) * 1000), 0 ≤ y := by
    intro y hy
    rcases List.mem_map.mp hy with ⟨i, _, rfl⟩
    have hstep : clock (2 * i) ≤ clock (2 * i + 1) := hmono (Nat.le_succ (2 * i))
    have hd : (0 : ℚ) ≤ clock (2 * i + 1) - clock (2 * i) := by linarith
    positivity
  refine ⟨warmupStats ((List.range n).map
      (fun i => (clock (2 * i + 1) - clock (2 * i)) * 1000)), ?_, ?_, ?_, ?_, ?_, ?_, ?_⟩
  · unfold DINOv2Inference.warmup
    rw [hloop]
    simp
  all_goals
    have hbounds := warmupStats_bounds _ hlats_ne hlats_pos
    tauto

/-- The identity clock, cast from the naturals. -/
def idClock : ℕ → ℚ := fun k => (k : ℚ)

/-- The identity clock is monotone. -/
theorem idClock_mono : Monotone idClock := by
  intro a b h
  unfold idClock
  exact_mod_cast h

/-- C5 witness: warmup with 3 iterations on a loaded onnx extractor under
the identity clock satisfies all the stated bounds. -/
theorem warmup_stats_bounds_witness :
    0 < 3 ∧ Monotone idClock ∧
    (loadedOnnxExtractor.ort_session = true ∨ loadedOnnxExtractor.model_set = true) ∧
    (∃ stats : WarmupStats, loadedOnnxExtractor.warmup idClock 3 = .ok (stats, 3) ∧
      0 ≤ stats.first_inference_ms ∧ 0 ≤ stats.avg_inference_ms ∧
      0 ≤ stats.min_inference_ms ∧ 0 ≤ stats.max_inference_ms ∧
      stats.min_inference_ms ≤ stats.avg_inference_ms ∧
      stats.avg_inference_ms ≤ stats.max_inference_ms) :=
  ⟨by decide, idClock_mono, Or.inl rfl,
   warmup_stats_bounds loadedOnnxExtractor idClock 3 (by decide) idClock_mono (Or.inl rfl)⟩

end FolliCore
